import Mathlib

/-!
Verification of the glflake distributed unique-ID generator.

The generator (`glflake.go`) is embedded shallowly: the Go struct becomes a
Lean structure, `NextID` becomes a pure step function taking the wall-clock
reading (`time.Now().UnixNano()`) as an explicit input oracle, and the
`time.Sleep` side effect is reported as the slept duration in the outcome.
Go `int64` arithmetic is modelled on `Int` (no operation below can overflow
64 bits on the states the theorems quantify over, which is proved where it
matters); Go `uint16` values are modelled as `Nat` reduced `% 2 ^ 16` at the
points where the Go type system performs the conversion.

The codec layer (`id.go`) is not part of the sources; it is modelled from
the specification, pinned by the concrete vectors of `id_test.go`.
-/

deriving instance DecidableEq for Except

/-! ## Bit layout constants (`glflake.go`) -/

/-- Bit length of the time field. -/
def BitLenTime : Nat := 39

/-- Bit length of the machine-id field. -/
def BitLenMachineID : Nat := 16

/-- Bit length of the sequence field. -/
def BitLenSequence : Nat := 8

/-! ## Time conversion (`glflake.go`) -/

/-- The glflake time unit in nanoseconds: `1e7` nsec, i.e. 10 msec. -/
def glflakeTimeUnit : Int := 10000000

/-- Go `toGlflakeTime`: `t.UTC().UnixNano() / glflakeTimeUnit`.  The time is
given as UnixNano; Go integer division truncates toward zero (`Int.tdiv`). -/
def toGlflakeTime (unixNano : Int) : Int :=
  Int.tdiv unixNano glflakeTimeUnit

/-- Go `currentElapsedTime`: `toGlflakeTime(time.Now()) - startTime`, with the
wall-clock reading passed explicitly. -/
def currentElapsedTime (startTime nowNano : Int) : Int :=
  toGlflakeTime nowNano - startTime

/-- Go `sleepTime`: `time.Duration(overtime)*10*time.Millisecond -
time.Duration(time.Now().UTC().UnixNano()%glflakeTimeUnit)*time.Nanosecond`,
in nanoseconds (`10*time.Millisecond = 1e7` ns); Go `%` is `Int.tmod`. -/
def sleepTime (overtime nowNano : Int) : Int :=
  overtime * 10 * 1000000 - Int.tmod nowNano glflakeTimeUnit

/-! ## Generator state (`glflake.go`) -/

/-- The Go struct `glflake` (the mutex is not part of the sequential model:
it only serializes callers, so the model is the locked critical section).
`machineID` and `sequence` are Go `uint16` values. -/
structure Glflake where
  startTime : Int
  elapsedTime : Int
  machineID : Nat
  sequence : Nat
deriving DecidableEq

/-- Go `Settings`.  `StartTime` is the UnixNano of the configured epoch,
`none` standing for the zero `time.Time`; `MachineID` is the result of the
callback (`Except` models the `(uint16, error)` pair), `none` standing for a
nil callback; `CheckMachineID` likewise. -/
structure Settings where
  StartTime : Option Int
  MachineID : Option (Except Unit Nat)
  CheckMachineID : Option (Nat → Bool)

/-- UnixNano of `2021-10-01 00:00:00 +0000 UTC`, the default epoch. -/
def defaultStartTimeNano : Int := 1633046400 * 1000000000

/-- Go `st.StartTime.After(time.Now())`: the zero `time.Time`
(`StartTime = none`, year 1) is never after `now`. -/
def startTimeAhead (st : Settings) (nowNano : Int) : Bool :=
  match st.StartTime with
  | some t => decide (nowNano < t)
  | none => false

/-- The `gf.startTime` assignment of Go `NewGlflake`: the fixed default
epoch when `StartTime` is the zero time, else `toGlflakeTime(st.StartTime)`. -/
def resolveStartTime (st : Settings) : Int :=
  match st.StartTime with
  | none => toGlflakeTime defaultStartTimeNano
  | some t => toGlflakeTime t

/-- The machine-ID resolution of Go `NewGlflake`: `lower16BitPrivateIP()`
when the callback is nil, else the callback's result. -/
def resolveMachineID (st : Settings) (lower16BitPrivateIP : Except Unit Nat) :
    Except Unit Nat :=
  match st.MachineID with
  | none => lower16BitPrivateIP
  | some f => f

/-- Go `st.CheckMachineID != nil && !st.CheckMachineID(gf.machineID)`. -/
def checkFails (st : Settings) (machineID : Nat) : Bool :=
  match st.CheckMachineID with
  | some check => !(check machineID)
  | none => false

/-- Go `NewGlflake`.  `nowNano` is the `time.Now()` reading and
`lower16BitPrivateIP` the result of the default machine-ID source (a
capability external to the core, passed as an oracle).  The callback's
result is a Go `uint16`, hence the `% 2 ^ 16`. -/
def NewGlflake (st : Settings) (nowNano : Int)
    (lower16BitPrivateIP : Except Unit Nat) : Option Glflake :=
  if startTimeAhead st nowNano then
    none
  else
    match resolveMachineID st lower16BitPrivateIP with
    | .error _ => none
    | .ok m =>
      if checkFails st (m % 2 ^ 16) then
        none
      else
        some { startTime := resolveStartTime st, elapsedTime := 0,
               machineID := m % 2 ^ 16,
               sequence := 2 ^ BitLenSequence - 1 }

/-! ## NextID (`glflake.go`) -/

/-- The sequence mask `1<<BitLenSequence - 1`. -/
def maskSequence : Nat := 2 ^ BitLenSequence - 1

/-- Go `toID`: error when `gf.elapsedTime >= 1<<BitLenTime`, otherwise the
packed `int64(elapsedTime)<<24 | int64(machineID)<<8 | int64(sequence)`.
Written as a sum: the three fields occupy disjoint bit ranges (`machineID`
is a `uint16`, `sequence` is always `<= 255` where `toID` is reached, and
`elapsedTime >= 0` there), so the Go bitwise or is exactly this addition. -/
def Glflake.toID (gf : Glflake) : Except String Int :=
  if 2 ^ BitLenTime ≤ gf.elapsedTime then
    .error "over the time limit"
  else
    .ok (gf.elapsedTime * 2 ^ (BitLenMachineID + BitLenSequence)
         + (gf.machineID : Int) * 2 ^ BitLenSequence + (gf.sequence : Int))

/-- The state update performed by Go `NextID` under the lock: adopt a newer
tick and reset the sequence, or increment the masked sequence, advancing the
stored tick by one when the increment wraps to 0. -/
def nextState (gf : Glflake) (nowNano : Int) : Glflake :=
  if gf.elapsedTime < currentElapsedTime gf.startTime nowNano then
    { gf with elapsedTime := currentElapsedTime gf.startTime nowNano,
              sequence := 0 }
  else if (gf.sequence + 1) &&& maskSequence = 0 then
    { gf with sequence := (gf.sequence + 1) &&& maskSequence,
              elapsedTime := gf.elapsedTime + 1 }
  else
    { gf with sequence := (gf.sequence + 1) &&& maskSequence }

/-- The `time.Sleep` performed by Go `NextID`: only on sequence wrap, for
`sleepTime(gf.elapsedTime - current)` nanoseconds (with the already
incremented `elapsedTime`). -/
def nextSleep (gf : Glflake) (nowNano : Int) : Option Int :=
  if gf.elapsedTime < currentElapsedTime gf.startTime nowNano then
    none
  else if (gf.sequence + 1) &&& maskSequence = 0 then
    some (sleepTime ((gf.elapsedTime + 1) - currentElapsedTime gf.startTime nowNano) nowNano)
  else
    none

/-- The full observable outcome of one Go `NextID` call: the successor
state, the slept duration (if any), and the returned `(ID, error)`. -/
structure NextIDOutcome where
  state : Glflake
  sleepNano : Option Int
  result : Except String Int
deriving DecidableEq

/-- Go `NextID`, as a pure function of the state and the wall-clock reading:
mutate the state, possibly sleep, then return `gf.toID()` of the new state. -/
def NextID (gf : Glflake) (nowNano : Int) : NextIDOutcome :=
  { state := nextState gf nowNano
    sleepNano := nextSleep gf nowNano
    result := (nextState gf nowNano).toID }

/-- Iterate `NextID` over a list of wall-clock readings, keeping the state. -/
def runNextID (gf : Glflake) (readings : List Int) : Glflake :=
  readings.foldl nextState gf

/-! ## Decompose (`glflake.go`) -/

/-- The Go result of `Decompose`, a `map[string]int64` with the five keys
`id`, `msb`, `time`, `machine-id`, `sequence`, modelled as a record. -/
structure DecomposedID where
  id : Int
  msb : Int
  time : Int
  machineID : Int
  sequence : Int
deriving DecidableEq

/-- Go `Decompose`.  On `int64`, `x >> n` is an arithmetic shift, i.e. floor
division by `2 ^ n` (Lean's `Int` division); `x & maskSequence` keeps the low
8 bits, i.e. the nonnegative residue `x % 2 ^ 8`; `(x & maskMachineID) >> 8`
keeps bits 8..23, i.e. `(x % 2 ^ 24) / 2 ^ 8`. -/
def Decompose (id : Int) : DecomposedID :=
  { id := id
    msb := id / 2 ^ 63
    time := id / 2 ^ (BitLenMachineID + BitLenSequence)
    machineID := (id % 2 ^ (BitLenMachineID + BitLenSequence)) / 2 ^ BitLenSequence
    sequence := id % 2 ^ BitLenSequence }

/-! ## Generator invariants -/

/-- Well-formedness of a generator state: what the Go types and the
constructor guarantee (`elapsedTime` starts at 0 and never decreases,
`machineID` is a `uint16`, `sequence` is 255 initially and masked to 8 bits
by every update). -/
def Glflake.WF (gf : Glflake) : Prop :=
  0 ≤ gf.elapsedTime ∧ gf.machineID < 2 ^ 16 ∧ gf.sequence < 2 ^ 8

instance (gf : Glflake) : Decidable gf.WF := by
  unfold Glflake.WF; infer_instance

/-- The lexicographic (tick, sequence) emission key, as a single integer
(faithful because `sequence < 2 ^ 8` on well-formed states). -/
def Glflake.lexKey (gf : Glflake) : Int :=
  gf.elapsedTime * 2 ^ 8 + (gf.sequence : Int)

theorem and_maskSequence_eq_mod (n : Nat) : n &&& maskSequence = n % 2 ^ 8 :=
  Nat.and_pow_two_sub_one_eq_mod n 8

theorem nextState_machineID (gf : Glflake) (now : Int) :
    (nextState gf now).machineID = gf.machineID := by
  unfold nextState; split
  · rfl
  · split <;> rfl

theorem nextState_startTime (gf : Glflake) (now : Int) :
    (nextState gf now).startTime = gf.startTime := by
  unfold nextState; split
  · rfl
  · split <;> rfl

theorem nextState_elapsed_le (gf : Glflake) (now : Int) :
    gf.elapsedTime ≤ (nextState gf now).elapsedTime := by
  unfold nextState; split
  · dsimp only; omega
  · split <;> dsimp only <;> omega

theorem nextState_WF (gf : Glflake) (now : Int) (h : gf.WF) :
    (nextState gf now).WF := by
  obtain ⟨h1, h2, h3⟩ := h
  unfold nextState Glflake.WF; split
  · dsimp only; refine ⟨by omega, h2, by norm_num⟩
  · split <;> dsimp only <;>
      refine ⟨by omega, h2, ?_⟩ <;> rw [and_maskSequence_eq_mod] <;> omega

theorem nextState_lexKey_lt (gf : Glflake) (now : Int) (h : gf.WF) :
    gf.lexKey < (nextState gf now).lexKey := by
  obtain ⟨h1, h2, h3⟩ := h
  have hs : (gf.sequence : Int) < 2 ^ 8 := by exact_mod_cast h3
  unfold nextState Glflake.lexKey
  split
  · dsimp only; push_cast; omega
  · split
    · rename_i hge hwrap
      rw [and_maskSequence_eq_mod] at hwrap
      dsimp only
      rw [and_maskSequence_eq_mod, hwrap]
      push_cast; omega
    · rename_i hge hnowrap
      rw [and_maskSequence_eq_mod] at hnowrap
      dsimp only
      rw [and_maskSequence_eq_mod]
      have heq : (gf.sequence + 1) % 2 ^ 8 = gf.sequence + 1 := by omega
      rw [heq]; push_cast; omega

theorem runNextID_WF (gf : Glflake) (ns : List Int) (h : gf.WF) :
    (runNextID gf ns).WF := by
  induction ns generalizing gf with
  | nil => exact h
  | cons n ns ih => exact ih _ (nextState_WF gf n h)

theorem runNextID_machineID (gf : Glflake) (ns : List Int) :
    (runNextID gf ns).machineID = gf.machineID := by
  induction ns generalizing gf with
  | nil => rfl
  | cons n ns ih =>
    show (runNextID (nextState gf n) ns).machineID = gf.machineID
    rw [ih, nextState_machineID]

theorem runNextID_elapsed_le (gf : Glflake) (ns : List Int) :
    gf.elapsedTime ≤ (runNextID gf ns).elapsedTime := by
  induction ns generalizing gf with
  | nil => exact le_refl _
  | cons n ns ih =>
    calc gf.elapsedTime ≤ (nextState gf n).elapsedTime := nextState_elapsed_le gf n
    _ ≤ (runNextID (nextState gf n) ns).elapsedTime := ih (nextState gf n)

theorem runNextID_lexKey_le (gf : Glflake) (ns : List Int) (h : gf.WF) :
    gf.lexKey ≤ (runNextID gf ns).lexKey := by
  induction ns generalizing gf with
  | nil => exact le_refl _
  | cons n ns ih =>
    calc gf.lexKey ≤ (nextState gf n).lexKey := le_of_lt (nextState_lexKey_lt gf n h)
    _ ≤ (runNextID (nextState gf n) ns).lexKey := ih (nextState gf n) (nextState_WF gf n h)

theorem toID_ok (gf : Glflake) (a : Int) (h : gf.toID = .ok a) :
    gf.elapsedTime < 2 ^ BitLenTime ∧
    a = gf.elapsedTime * 2 ^ (BitLenMachineID + BitLenSequence)
        + (gf.machineID : Int) * 2 ^ BitLenSequence + (gf.sequence : Int) := by
  unfold Glflake.toID at h
  split at h
  · exact absurd h (by simp)
  · rename_i hlt
    refine ⟨lt_of_not_le hlt, by injection h with h; exact h.symm⟩

theorem NewGlflake_WF (st : Settings) (now : Int) (ip : Except Unit Nat)
    (gf : Glflake) (h : NewGlflake st now ip = some gf) : gf.WF := by
  unfold NewGlflake at h
  split at h
  · exact absurd h (by simp)
  · split at h
    · exact absurd h (by simp)
    · rename_i m
      split at h
      · exact absurd h (by simp)
      · injection h with h
        subst h
        refine ⟨le_refl _, Nat.mod_lt _ (by norm_num), by norm_num [BitLenSequence]⟩

theorem toID_error_of_overflow (gf : Glflake) (h : 2 ^ BitLenTime ≤ gf.elapsedTime) :
    gf.toID = .error "over the time limit" := by
  unfold Glflake.toID
  split
  · rfl
  · omega

/-- The concrete settings used by the witnesses: epoch = Unix time 0,
machine-ID callback returning 1, no validation callback. -/
def testSettings : Settings :=
  { StartTime := some 0, MachineID := some (.ok 1), CheckMachineID := none }

/-- The generator state `NewGlflake testSettings` constructs. -/
def gfTest : Glflake :=
  { startTime := 0, elapsedTime := 0, machineID := 1, sequence := 255 }

/-- C1: for every successfully constructed generator instance and every
sequence of wall-clock readings (the clock is an input oracle), the integers
returned by successful `NextID` calls strictly increase in emission order —
here: a call after readings `pre` returns `a`, a later call after further
readings `mids` returns `b`, and `a < b` — and the (elapsed-tick, sequence)
pair, encoded as `lexKey`, strictly increases on every call (here stated for
the first of the two calls, whose position is universally quantified). -/
theorem C1_nextID_strictly_increasing
    (st : Settings) (now0 : Int) (ip : Except Unit Nat) (gf0 : Glflake)
    (hnew : NewGlflake st now0 ip = some gf0)
    (pre : List Int) (n1 : Int) (mids : List Int) (n2 : Int) (a b : Int)
    (h1 : (NextID (runNextID gf0 pre) n1).result = .ok a)
    (h2 : (NextID (runNextID (NextID (runNextID gf0 pre) n1).state mids) n2).result = .ok b) :
    a < b ∧ (runNextID gf0 pre).lexKey < (NextID (runNextID gf0 pre) n1).state.lexKey := by
  have hWF0 : gf0.WF := NewGlflake_WF st now0 ip gf0 hnew
  have hWFpre : (runNextID gf0 pre).WF := runNextID_WF gf0 pre hWF0
  have hkey1 : (runNextID gf0 pre).lexKey < (nextState (runNextID gf0 pre) n1).lexKey :=
    nextState_lexKey_lt _ n1 hWFpre
  refine ⟨?_, hkey1⟩
  set s1 : Glflake := nextState (runNextID gf0 pre) n1 with hs1
  have hWF1 : s1.WF := nextState_WF _ n1 hWFpre
  have ha := toID_ok s1 a h1
  have hWFmid : (runNextID s1 mids).WF := runNextID_WF s1 mids hWF1
  have hkeymid : s1.lexKey ≤ (runNextID s1 mids).lexKey := runNextID_lexKey_le s1 mids hWF1
  set s2 : Glflake := nextState (runNextID s1 mids) n2 with hs2
  have hWF2 : s2.WF := nextState_WF _ n2 hWFmid
  have hkey2 : (runNextID s1 mids).lexKey < s2.lexKey := nextState_lexKey_lt _ n2 hWFmid
  have hb := toID_ok s2 b h2
  have hm1 : s1.machineID = gf0.machineID := by
    rw [hs1, nextState_machineID, runNextID_machineID]
  have hm2 : s2.machineID = gf0.machineID := by
    rw [hs2, nextState_machineID, runNextID_machineID, hs1, nextState_machineID,
        runNextID_machineID]
  obtain ⟨he1, ha⟩ := ha
  obtain ⟨he2, hb⟩ := hb
  obtain ⟨hq1a, hq1b, hq1c⟩ := hWF1
  obtain ⟨hq2a, hq2b, hq2c⟩ := hWF2
  rw [ha, hb]
  unfold Glflake.lexKey at hkey1 hkeymid hkey2
  rw [hm1, hm2]
  have h248 : (2:Int) ^ (BitLenMachineID + BitLenSequence) = 16777216 := by
    norm_num [BitLenMachineID, BitLenSequence]
  have h28 : (2:Int) ^ BitLenSequence = 256 := by norm_num [BitLenSequence]
  rw [h248, h28]
  have hcast1 : (s1.sequence : Int) < 2 ^ 8 := by exact_mod_cast hq1c
  have hcast2 : (s2.sequence : Int) < 2 ^ 8 := by exact_mod_cast hq2c
  omega

/-- C1 witness: from the constructed `gfTest`, a call at 10ms returns
16777472 and the next call at the same reading returns 16777473. -/
theorem C1_witness :
    (16777472 : Int) < 16777473
    ∧ (runNextID gfTest []).lexKey < (NextID (runNextID gfTest []) (10 ^ 7)).state.lexKey :=
  C1_nextID_strictly_increasing testSettings 0 (.error ()) gfTest (by decide)
    [] (10 ^ 7) [] (10 ^ 7) 16777472 16777473 (by decide) (by decide)

/-- C3: a `NextID` call returns the overflow error exactly when the stored
elapsed tick (of the mutated state, i.e. at packing time) has reached
`2 ^ 39`; an ID it does return is the exact packing of the stored fields
(no wrapping or truncation), is nonnegative, fits in 63 bits, and has
most-significant bit 0. -/
theorem C3_overflow_iff_and_msb (gf : Glflake) (now : Int) (h : gf.WF) :
    ((NextID gf now).result = .error "over the time limit"
      ↔ 2 ^ BitLenTime ≤ (NextID gf now).state.elapsedTime)
    ∧ ∀ a : Int, (NextID gf now).result = .ok a →
        a = (NextID gf now).state.elapsedTime * 2 ^ (BitLenMachineID + BitLenSequence)
            + ((NextID gf now).state.machineID : Int) * 2 ^ BitLenSequence
            + ((NextID gf now).state.sequence : Int)
        ∧ 0 ≤ a ∧ a < 2 ^ 63 ∧ (Decompose a).msb = 0 := by
  have hWF : (nextState gf now).WF := nextState_WF gf now h
  obtain ⟨hwa, hwb, hwc⟩ := hWF
  have h248 : (2:Int) ^ (BitLenMachineID + BitLenSequence) = 16777216 := by
    norm_num [BitLenMachineID, BitLenSequence]
  have h28 : (2:Int) ^ BitLenSequence = 256 := by norm_num [BitLenSequence]
  have hc1 : ((nextState gf now).machineID : Int) < 2 ^ 16 := by exact_mod_cast hwb
  have hc2 : ((nextState gf now).sequence : Int) < 2 ^ 8 := by exact_mod_cast hwc
  have hc0 : (0:Int) ≤ ((nextState gf now).machineID : Int) := Int.ofNat_nonneg _
  have hc0' : (0:Int) ≤ ((nextState gf now).sequence : Int) := Int.ofNat_nonneg _
  constructor
  · show (nextState gf now).toID = .error "over the time limit" ↔
        2 ^ BitLenTime ≤ (nextState gf now).elapsedTime
    unfold Glflake.toID
    split
    · simp; omega
    · rename_i hlt
      constructor
      · intro hc; exact absurd hc (by simp)
      · intro hc; omega
  · intro a ha
    obtain ⟨he, ha⟩ := toID_ok (nextState gf now) a ha
    refine ⟨ha, ?_, ?_, ?_⟩
    · rw [ha, h248, h28]
      omega
    · rw [ha, h248, h28]
      simp only [BitLenTime] at he
      omega
    · rw [ha]
      unfold Decompose
      rw [h248, h28]
      simp only [BitLenMachineID, BitLenSequence]
      simp only [BitLenTime] at he
      omega

/-- C3 witness: at `gfTest` and reading 10ms the call succeeds, so the
error-iff gives a tick below `2 ^ 39`, and the returned ID 16777472 packs
the fields, is nonnegative, below `2 ^ 63`, with msb 0. -/
theorem C3_witness :
    ((NextID gfTest (10 ^ 7)).result = .error "over the time limit"
      ↔ 2 ^ BitLenTime ≤ (NextID gfTest (10 ^ 7)).state.elapsedTime)
    ∧ ∀ a : Int, (NextID gfTest (10 ^ 7)).result = .ok a →
        a = (NextID gfTest (10 ^ 7)).state.elapsedTime * 2 ^ (BitLenMachineID + BitLenSequence)
            + ((NextID gfTest (10 ^ 7)).state.machineID : Int) * 2 ^ BitLenSequence
            + ((NextID gfTest (10 ^ 7)).state.sequence : Int)
        ∧ 0 ≤ a ∧ a < 2 ^ 63 ∧ (Decompose a).msb = 0 :=
  C3_overflow_iff_and_msb gfTest (10 ^ 7) (by decide)

/-- C10: the stored elapsed tick never decreases across a call under any
clock reading; the state is mutated (the (tick, sequence) key strictly
increases) even when the call returns the overflow error, since the mutation
precedes the packing check; and once the stored tick has reached `2 ^ 39`,
every later call, after any further readings, returns the overflow error. -/
theorem C10_monotone_and_absorbing (gf : Glflake) (now : Int) (h : gf.WF) :
    gf.elapsedTime ≤ (NextID gf now).state.elapsedTime
    ∧ gf.lexKey < (NextID gf now).state.lexKey
    ∧ (2 ^ BitLenTime ≤ gf.elapsedTime →
        ∀ (ns : List Int) (n : Int),
          (NextID (runNextID gf ns) n).result = .error "over the time limit") := by
  refine ⟨nextState_elapsed_le gf now, nextState_lexKey_lt gf now h, ?_⟩
  intro hover ns n
  show (nextState (runNextID gf ns) n).toID = .error "over the time limit"
  apply toID_error_of_overflow
  calc (2:Int) ^ BitLenTime ≤ gf.elapsedTime := hover
  _ ≤ (runNextID gf ns).elapsedTime := runNextID_elapsed_le gf ns
  _ ≤ (nextState (runNextID gf ns) n).elapsedTime := nextState_elapsed_le _ n

/-- The overflowed state used to witness C10: `gfTest` with the stored tick
already at `2 ^ 39`. -/
def gfOver : Glflake :=
  { startTime := 0, elapsedTime := 2 ^ 39, machineID := 1, sequence := 255 }

/-- C10 witness at the overflowed state `gfOver` and two further calls. -/
theorem C10_witness :
    gfOver.elapsedTime ≤ (NextID gfOver 0).state.elapsedTime
    ∧ gfOver.lexKey < (NextID gfOver 0).state.lexKey
    ∧ (2 ^ BitLenTime ≤ gfOver.elapsedTime →
        ∀ (ns : List Int) (n : Int),
          (NextID (runNextID gfOver ns) n).result = .error "over the time limit") :=
  C10_monotone_and_absorbing gfOver 0 (by decide)

/-- Settings whose epoch is wall-clock tick 100 (UnixNano `10 ^ 9`). -/
def c4Settings : Settings :=
  { StartTime := some (10 ^ 9), MachineID := some (.ok 1), CheckMachineID := none }

/-- The state `NewGlflake c4Settings` constructs at time `10 ^ 9`: stored
tick 0, sequence already at its initial maximum 255. -/
def c4State : Glflake :=
  { startTime := 100, elapsedTime := 0, machineID := 1, sequence := 255 }

/-- C4 counterexample: in the state `c4State`, produced by a successful
construction, a call whose wall-clock reading is tick 98 (the clock went
back behind the tick-100 epoch, so the current elapsed tick is -2, not past
the stored tick 0) wraps the sequence: the call advances the stored tick to
1 = stored + 1, not to -1 = current + 1 as the claim states. -/
theorem C4_counterexample :
    NewGlflake c4Settings (10 ^ 9) (.error ()) = some c4State
    ∧ currentElapsedTime c4State.startTime (98 * 10 ^ 7) ≤ c4State.elapsedTime
    ∧ (c4State.sequence + 1) &&& maskSequence = 0
    ∧ (NextID c4State (98 * 10 ^ 7)).state.elapsedTime = c4State.elapsedTime + 1
    ∧ (NextID c4State (98 * 10 ^ 7)).state.elapsedTime
        ≠ currentElapsedTime c4State.startTime (98 * 10 ^ 7) + 1 := by
  decide

/-- C4 (amended): when the wall clock has not advanced past the stored tick
and the 8-bit sequence increment wraps to 0, the stored tick is advanced by
exactly 1 tick beyond its previous (stored) value — which is 1 beyond the
current elapsed tick exactly when the stored tick equals the current one —
and the call sleeps until wall-clock time reaches precisely the start of
that future stored tick. -/
theorem C4_sequence_exhaustion (gf : Glflake) (now : Int)
    (hcur : currentElapsedTime gf.startTime now ≤ gf.elapsedTime)
    (hwrap : (gf.sequence + 1) &&& maskSequence = 0) :
    (NextID gf now).state.elapsedTime = gf.elapsedTime + 1
    ∧ (NextID gf now).state.sequence = 0
    ∧ (NextID gf now).sleepNano
        = some (sleepTime (gf.elapsedTime + 1 - currentElapsedTime gf.startTime now) now)
    ∧ now + sleepTime (gf.elapsedTime + 1 - currentElapsedTime gf.startTime now) now
        = (gf.startTime + gf.elapsedTime + 1) * glflakeTimeUnit := by
  have hnlt : ¬ gf.elapsedTime < currentElapsedTime gf.startTime now := not_lt.mpr hcur
  refine ⟨?_, ?_, ?_, ?_⟩
  · show (nextState gf now).elapsedTime = gf.elapsedTime + 1
    unfold nextState
    rw [if_neg hnlt, if_pos hwrap]
  · show (nextState gf now).sequence = 0
    unfold nextState
    rw [if_neg hnlt, if_pos hwrap]
    exact hwrap
  · show nextSleep gf now = _
    unfold nextSleep
    rw [if_neg hnlt, if_pos hwrap]
  · unfold sleepTime currentElapsedTime toGlflakeTime
    have hid := Int.tdiv_add_tmod now glflakeTimeUnit
    unfold glflakeTimeUnit at *
    omega

/-- C4 amended witness, at the concrete exhausted state `c4State`. -/
theorem C4_sequence_exhaustion_witness :
    (NextID c4State (98 * 10 ^ 7)).state.elapsedTime = c4State.elapsedTime + 1
    ∧ (NextID c4State (98 * 10 ^ 7)).state.sequence = 0
    ∧ (NextID c4State (98 * 10 ^ 7)).sleepNano
        = some (sleepTime (c4State.elapsedTime + 1
            - currentElapsedTime c4State.startTime (98 * 10 ^ 7)) (98 * 10 ^ 7))
    ∧ 98 * 10 ^ 7 + sleepTime (c4State.elapsedTime + 1
            - currentElapsedTime c4State.startTime (98 * 10 ^ 7)) (98 * 10 ^ 7)
        = (c4State.startTime + c4State.elapsedTime + 1) * glflakeTimeUnit :=
  C4_sequence_exhaustion c4State (98 * 10 ^ 7) (by decide) (by decide)

/-- C5: `Decompose` is a total pure function (any 64-bit value decomposes,
with no error case); its fields recombine to the input through the packing
formula `time<<24 + machineID<<8 + sequence` (the bit ranges are disjoint,
so the Go bitwise or is this sum) for every integer input; and
`Decompose 9223372036854775807` yields time 549755813887, machine-id 65535,
sequence 255, msb 0. -/
theorem C5_decompose_recombines (id : Int) :
    (Decompose id).time * 2 ^ (BitLenMachineID + BitLenSequence)
      + (Decompose id).machineID * 2 ^ BitLenSequence
      + (Decompose id).sequence = id
    ∧ (Decompose id).id = id
    ∧ Decompose 9223372036854775807 =
        { id := 9223372036854775807, msb := 0, time := 549755813887,
          machineID := 65535, sequence := 255 } := by
  refine ⟨?_, rfl, by decide⟩
  unfold Decompose
  have h248 : (2:Int) ^ (BitLenMachineID + BitLenSequence) = 16777216 := by
    norm_num [BitLenMachineID, BitLenSequence]
  have h28 : (2:Int) ^ BitLenSequence = 256 := by norm_num [BitLenSequence]
  rw [h248, h28]
  show id / 16777216 * 16777216 + id % 16777216 / 256 * 256 + id % 256 = id
  omega

/-- C9: every successful construction initialises the sequence counter to
its maximum value `2 ^ 8 - 1 = 255`, so the first fresh tick starts the
sequence at 0. -/
theorem C9_sequence_initialised (st : Settings) (now : Int)
    (ip : Except Unit Nat) (gf : Glflake)
    (h : NewGlflake st now ip = some gf) :
    gf.sequence = 2 ^ BitLenSequence - 1 ∧ gf.sequence = 255 := by
  unfold NewGlflake at h
  split at h
  · exact absurd h (by simp)
  · split at h
    · exact absurd h (by simp)
    · split at h
      · exact absurd h (by simp)
      · injection h with h
        subst h
        exact ⟨rfl, by norm_num [BitLenSequence]⟩

/-- C9 witness at the concrete construction of `gfTest`. -/
theorem C9_witness : gfTest.sequence = 2 ^ BitLenSequence - 1 ∧ gfTest.sequence = 255 :=
  C9_sequence_initialised testSettings 0 (.error ()) gfTest (by decide)

/-- C6: construction returns no usable instance exactly when the configured
epoch is ahead of the current time, or the (resolved) machine-ID capability
reports an error, or the validation capability rejects the resolved machine
ID; otherwise it returns an instance. -/
theorem C6_construction_fails_iff (st : Settings) (now : Int) (ip : Except Unit Nat) :
    NewGlflake st now ip = none ↔
      startTimeAhead st now = true
      ∨ resolveMachineID st ip = .error ()
      ∨ (∃ m, resolveMachineID st ip = .ok m ∧ checkFails st (m % 2 ^ 16) = true) := by
  unfold NewGlflake
  rcases hahead : startTimeAhead st now with _ | _
  · simp only [Bool.false_eq_true, if_false]
    rcases hmid : resolveMachineID st ip with e | m
    · cases e
      simp
    · rcases hck : checkFails st (m % 2 ^ 16) with _ | _
      · constructor
        · intro hc
          have hck' : checkFails st (m % 65536) = false := by simpa using hck
          exact absurd hc (by simp [hck'])
        · rintro (hc | hc | ⟨m', hm', hc⟩)
          · exact absurd hc (by simp)
          · exact absurd hc (by simp)
          · injection hm' with hm'
            subst hm'
            rw [hck] at hc
            exact absurd hc (by simp)
      · constructor
        · intro _
          exact Or.inr (Or.inr ⟨m, rfl, hck⟩)
        · intro _
          simpa using hck
  · simp

/-! ## Codec layer

The file `id.go` is not among the sources (only its tests are), so every
definition in this section is modelled from the specification, §4.2 and §7,
and validated against the concrete vectors of `id_test.go` below.  Textual
representations are `List Char`; byte strings are `List Nat` of values
below 256. -/

/-- Modelled from the spec: the recoverable decode-time error of the codec
family (`ParseError` in §7, produced by the missing `id.go` decoders); each
variant signals which input was rejected. -/
inductive ParseError where
  | invalidChar (c : Char) : ParseError
  | emptyInput : ParseError
  | outOfRange : ParseError
  | tooLong : ParseError
  | badBase64 : ParseError
deriving DecidableEq

/-- Modelled from the spec: positional base-`alpha.length` rendering of a
natural number, digits mapped through the fixed alphabet table, most
significant digit first, one digit `alpha[0]` for zero (the common rendering
of the missing `id.go` encoders `String`, `Base2`, `Base32`, `Base36`,
`Base58`). -/
def digitsRevAux (b : Nat) : Nat → Nat → List Nat
  | 0, _ => []
  | fuel + 1, n => if n = 0 then [] else n % b :: digitsRevAux b fuel (n / b)

theorem digitsRevAux_eq_digits (b : Nat) (hb : 2 ≤ b) :
    ∀ fuel n, n ≤ fuel → digitsRevAux b fuel n = Nat.digits b n := by
  intro fuel
  induction fuel with
  | zero =>
    intro n hn
    have h0 : n = 0 := Nat.le_zero.mp hn
    subst h0
    simp [digitsRevAux]
  | succ fuel ih =>
    intro n hn
    by_cases h0 : n = 0
    · subst h0
      simp [digitsRevAux]
    · rw [digitsRevAux, if_neg h0,
          ih (n / b) ?_, ← Nat.digits_def' (by omega : 1 < b) (Nat.pos_of_ne_zero h0)]
      have := Nat.div_lt_self (Nat.pos_of_ne_zero h0) (by omega : 1 < b)
      omega

def encodeBase (alpha : List Char) (n : Nat) : List Char :=
  if n = 0 then [alpha.getD 0 ' ']
  else (digitsRevAux alpha.length n n).reverse.map (fun d => alpha.getD d ' ')

/-- Modelled from the spec: the digit-folding loop of the missing `id.go`
decoders — fail on the first character outside the alphabet, otherwise
accumulate `acc * base + digit`. -/
def decodeBaseAux (alpha : List Char) : Nat → List Char → Except ParseError Nat
  | acc, [] => .ok acc
  | acc, c :: rest =>
    match alpha.findIdx? (· = c) with
    | some i => decodeBaseAux alpha (acc * alpha.length + i) rest
    | none => .error (.invalidChar c)

/-- Modelled from the spec: a whole decode.  `checkRange` is true for the
decoders specified to fail on empty or out-of-int64-range text (decimal,
binary, base36); the base32/base58 decoders of §4.2 fail only on characters
outside their alphabet. -/
def decodeBase (alpha : List Char) (checkRange : Bool) (s : List Char) :
    Except ParseError Int :=
  if checkRange && s.isEmpty then .error .emptyInput
  else
    match decodeBaseAux alpha 0 s with
    | .error e => .error e
    | .ok n =>
      if checkRange && decide (2 ^ 63 ≤ n) then .error .outOfRange
      else .ok (n : Int)

theorem decodeBaseAux_map (alpha : List Char)
    (hidx : ∀ d, d < alpha.length →
      alpha.findIdx? (· = alpha.getD d ' ') = some d)
    (ds : List Nat) (hds : ∀ d ∈ ds, d < alpha.length) (acc : Nat) :
    decodeBaseAux alpha acc (ds.map (fun d => alpha.getD d ' '))
      = .ok (ds.foldl (fun a d => a * alpha.length + d) acc) := by
  induction ds generalizing acc with
  | nil => rfl
  | cons d ds ih =>
    have hd : d < alpha.length := hds d (List.mem_cons_self d ds)
    show decodeBaseAux alpha acc (alpha.getD d ' ' :: ds.map _) = _
    unfold decodeBaseAux
    rw [hidx d hd]
    exact ih (fun x hx => hds x (List.mem_cons_of_mem d hx)) _

theorem foldl_reverse_digits (b : Nat) (L : List Nat) (acc : Nat) :
    L.reverse.foldl (fun a d => a * b + d) acc
      = acc * b ^ L.length + Nat.ofDigits b L := by
  induction L generalizing acc with
  | nil => simp [Nat.ofDigits]
  | cons d L ih =>
    rw [List.reverse_cons, List.foldl_append, ih]
    simp only [List.foldl_cons, List.foldl_nil, Nat.ofDigits_cons, List.length_cons]
    ring

theorem decodeBase_encodeBase (alpha : List Char) (chk : Bool) (n : Nat)
    (hb : 2 ≤ alpha.length)
    (hidx : ∀ d, d < alpha.length →
      alpha.findIdx? (· = alpha.getD d ' ') = some d)
    (hn : chk = true → n < 2 ^ 63) :
    decodeBase alpha chk (encodeBase alpha n) = .ok (n : Int) := by
  have hlen1 : 1 < alpha.length := hb
  by_cases h0 : n = 0
  · subst h0
    unfold encodeBase decodeBase
    rw [if_pos rfl]
    have h1 : decodeBaseAux alpha 0 [alpha.getD 0 ' ']
        = .ok (0 * alpha.length + 0) := by
      have := decodeBaseAux_map alpha hidx [0] (by intro d hd; simp at hd; omega) 0
      simpa using this
    simp only [List.isEmpty_cons, Bool.and_false, Bool.false_eq_true, if_false, h1]
    norm_num
  · unfold encodeBase decodeBase
    rw [if_neg h0]
    rw [digitsRevAux_eq_digits alpha.length hb n n (le_refl n)]
    have hne : Nat.digits alpha.length n ≠ [] :=
      Nat.digits_ne_nil_iff_ne_zero.mpr h0
    have hds : ∀ d ∈ (Nat.digits alpha.length n).reverse, d < alpha.length := by
      intro d hd
      rw [List.mem_reverse] at hd
      exact Nat.digits_lt_base hlen1 hd
    have hmap := decodeBaseAux_map alpha hidx
      ((Nat.digits alpha.length n).reverse) hds 0
    have hval : ((Nat.digits alpha.length n).reverse).foldl
        (fun a d => a * alpha.length + d) 0 = n := by
      rw [foldl_reverse_digits]
      simp [Nat.ofDigits_digits]
    have hempty : (((Nat.digits alpha.length n).reverse).map
        (fun d => alpha.getD d ' ')).isEmpty = false := by
      rcases hrev : (Nat.digits alpha.length n).reverse with _ | ⟨x, xs⟩
      · exact absurd (by simpa using hrev) hne
      · rfl
    rw [hmap, hval] at *
    rw [hempty]
    simp only [Bool.and_false, Bool.false_eq_true, if_false, hmap, hval]
    have hrange : (chk && decide (2 ^ 63 ≤ n)) = false := by
      rcases chk with _ | _
      · rfl
      · simp only [Bool.true_and, decide_eq_false_iff_not, not_le]
        exact hn rfl
    rw [hrange]
    simp

/-- Modelled from the spec: the decimal digit alphabet of the missing
`id.go` `String`/`ParseString` pair ("base-10 text of the integer"). -/
def decimalDigits : List Char := "0123456789".toList

/-- Modelled from the spec: the binary digit alphabet of `Base2`. -/
def base2Digits : List Char := "01".toList

/-- Modelled from the spec: the base36 alphabet, "digits 0-9, a-z". -/
def base36Digits : List Char := "0123456789abcdefghijklmnopqrstuvwxyz".toList

/-- Modelled from the spec: the custom base32 alphabet of the missing
`id.go` ("excludes ambiguous chars: no l, v, 2, case-sensitive lowercase
only"); the exact table is pinned by the `id_test.go` vector
`ParseBase32("b8wjm1zroyyyy") = 1427970479175499776`. -/
def encodeBase32Map : List Char := "ybndrfg8ejkmcpqxot1uwisza345h769".toList

/-- Modelled from the spec: the base58 alphabet of the missing `id.go`
("Bitcoin-style alphabet, excludes 0, I, O, l"); the exact table is pinned
by the `id_test.go` vector `ParseBase58("4jgmnx8Js8A") = 1428076403798048768`. -/
def encodeBase58Map : List Char :=
  "123456789abcdefghijkmnopqrstuvwxyzABCDEFGHJKLMNPQRSTUVWXYZ".toList

theorem decimalDigits_idx : ∀ d, d < decimalDigits.length →
    decimalDigits.findIdx? (· = decimalDigits.getD d ' ') = some d := by decide

theorem base2Digits_idx : ∀ d, d < base2Digits.length →
    base2Digits.findIdx? (· = base2Digits.getD d ' ') = some d := by decide

theorem base36Digits_idx : ∀ d, d < base36Digits.length →
    base36Digits.findIdx? (· = base36Digits.getD d ' ') = some d := by decide

theorem encodeBase32Map_idx : ∀ d, d < encodeBase32Map.length →
    encodeBase32Map.findIdx? (· = encodeBase32Map.getD d ' ') = some d := by decide

theorem encodeBase58Map_idx : ∀ d, d < encodeBase58Map.length →
    encodeBase58Map.findIdx? (· = encodeBase58Map.getD d ' ') = some d := by decide

/-- Modelled from the spec: the decimal-integer codec is an identity cast
("decode is a reinterpretation, not parsing"). -/
def ID.Int64 (f : Int) : Int := f

/-- Modelled from the spec: inverse identity cast. -/
def ParseInt64 (i : Int) : Int := i

/-- Modelled from the spec: decimal rendering of a (valid, nonnegative) ID. -/
def ID.String (f : Int) : List Char := encodeBase decimalDigits f.toNat

/-- Modelled from the spec: decimal parse, failing on non-numeric or
out-of-int64-range text. -/
def ParseString (s : List Char) : Except ParseError Int :=
  decodeBase decimalDigits true s

/-- Modelled from the spec: base-2 rendering, left-padded with zero digits
to the 63 digits of the ID's value bits ("encoding pads to 63 digits"). -/
def ID.Base2 (f : Int) : List Char :=
  List.replicate (63 - (encodeBase base2Digits f.toNat).length) '0'
    ++ encodeBase base2Digits f.toNat

/-- Modelled from the spec: base-2 parse, failing on invalid digits or
overflow. -/
def ParseBase2 (s : List Char) : Except ParseError Int :=
  decodeBase base2Digits true s

/-- Modelled from the spec: base32 rendering through the fixed table. -/
def ID.Base32 (f : Int) : List Char := encodeBase encodeBase32Map f.toNat

/-- Modelled from the spec: base32 parse, failing exactly on characters
outside the alphabet (uppercase included). -/
def ParseBase32 (s : List Char) : Except ParseError Int :=
  decodeBase encodeBase32Map false s

/-- Modelled from the spec: base36 rendering. -/
def ID.Base36 (f : Int) : List Char := encodeBase base36Digits f.toNat

/-- Modelled from the spec: base36 parse, failing on invalid characters or
overflow. -/
def ParseBase36 (s : List Char) : Except ParseError Int :=
  decodeBase base36Digits true s

/-- Modelled from the spec: base58 rendering through the fixed table. -/
def ID.Base58 (f : Int) : List Char := encodeBase encodeBase58Map f.toNat

/-- Modelled from the spec: base58 parse, failing on characters outside the
alphabet. -/
def ParseBase58 (s : List Char) : Except ParseError Int :=
  decodeBase encodeBase58Map false s

/-- Modelled from the spec: the variable-length ASCII-decimal byte form —
the bytes of the decimal rendering. -/
def ID.Bytes (f : Int) : List Nat := (ID.String f).map Char.toNat

/-- Modelled from the spec: the ASCII-decimal byte parser, which "fails with
ParseError if the input exceeds 19 digits (int64 decimal capacity)", else
parses the decimal text. -/
def ParseBytes (b : List Nat) : Except ParseError Int :=
  if 19 < b.length then .error .tooLong
  else ParseString (b.map Char.ofNat)

/-- The two's-complement 64-bit pattern of an `int64` value, as a `Nat`. -/
def toUInt64Bits (f : Int) : Nat := (f % (2 ^ 64 : Int)).toNat

/-- The `int64` value of a two's-complement 64-bit pattern. -/
def ofUInt64Bits (u : Nat) : Int :=
  if u < 2 ^ 63 then (u : Int) else (u : Int) - 2 ^ 64

/-- Modelled from the spec: the fixed 8-byte big-endian two's-complement
form (`IntBytes` of the missing `id.go`), most significant byte first. -/
def ID.IntBytes (f : Int) : List Nat :=
  [toUInt64Bits f / 2 ^ 56 % 256, toUInt64Bits f / 2 ^ 48 % 256,
   toUInt64Bits f / 2 ^ 40 % 256, toUInt64Bits f / 2 ^ 32 % 256,
   toUInt64Bits f / 2 ^ 24 % 256, toUInt64Bits f / 2 ^ 16 % 256,
   toUInt64Bits f / 2 ^ 8 % 256, toUInt64Bits f % 256]

/-- Modelled from the spec: inverse of `ID.IntBytes` on 8-byte inputs (the
Go parameter type `[8]uint8` admits nothing else; other lengths yield 0). -/
def ParseIntBytes (b : List Nat) : Int :=
  match b with
  | [b0, b1, b2, b3, b4, b5, b6, b7] =>
    ofUInt64Bits (b0 % 256 * 2 ^ 56 + b1 % 256 * 2 ^ 48 + b2 % 256 * 2 ^ 40
      + b3 % 256 * 2 ^ 32 + b4 % 256 * 2 ^ 24 + b5 % 256 * 2 ^ 16
      + b6 % 256 * 2 ^ 8 + b7 % 256)
  | _ => 0

/-- Modelled from the spec: the standard padded base64 alphabet. -/
def encodeBase64Map : List Char :=
  "ABCDEFGHIJKLMNOPQRSTUVWXYZabcdefghijklmnopqrstuvwxyz0123456789+/".toList

/-- The base64 digit of a 6-bit value. -/
def b64char (i : Nat) : Char := encodeBase64Map.getD i '?'

/-- The 6-bit value of a base64 digit, if any. -/
def b64index (c : Char) : Option Nat := encodeBase64Map.findIdx? (· = c)

/-- Modelled from the spec: standard padded base64 of a byte string, three
bytes to four digits, '=' padding for a 1- or 2-byte tail. -/
def base64Encode : List Nat → List Char
  | [] => []
  | [a] => [b64char (a / 4), b64char (a % 4 * 16), '=', '=']
  | [a, b] => [b64char (a / 4), b64char (a % 4 * 16 + b / 16),
               b64char (b % 16 * 4), '=']
  | a :: b :: c :: rest =>
      b64char (a / 4) :: b64char (a % 4 * 16 + b / 16) ::
      b64char (b % 16 * 4 + c / 64) :: b64char (c % 64) :: base64Encode rest

/-- Modelled from the spec: standard padded base64 decoding, failing on
malformed input — length not a multiple of four, characters outside the
alphabet, or padding anywhere but at the very end. -/
def base64Decode : List Char → Except ParseError (List Nat)
  | [] => .ok []
  | c1 :: c2 :: c3 :: c4 :: rest =>
    match b64index c1, b64index c2 with
    | some i1, some i2 =>
      if c3 = '=' then
        if c4 = '=' && rest.isEmpty then .ok [i1 * 4 + i2 / 16]
        else .error .badBase64
      else
        match b64index c3 with
        | some i3 =>
          if c4 = '=' then
            if rest.isEmpty then .ok [i1 * 4 + i2 / 16, i2 % 16 * 16 + i3 / 4]
            else .error .badBase64
          else
            match b64index c4 with
            | some i4 =>
              match base64Decode rest with
              | .ok bs =>
                  .ok ((i1 * 4 + i2 / 16) :: (i2 % 16 * 16 + i3 / 4) ::
                       (i3 % 4 * 64 + i4) :: bs)
              | .error e => .error e
            | none => .error .badBase64
        | none => .error .badBase64
    | _, _ => .error .badBase64
  | _ => .error .badBase64

/-- Modelled from the spec: "base64 wraps the textual decimal
representation, not the raw integer bytes". -/
def ID.Base64 (f : Int) : List Char := base64Encode (ID.Bytes f)

/-- Modelled from the spec: base64 decode then decimal-byte parse, failing
on malformed base64 or a non-numeric payload. -/
def ParseBase64 (s : List Char) : Except ParseError Int :=
  match base64Decode s with
  | .error e => .error e
  | .ok bs => ParseBytes bs

/-- Modelled from the spec: the JSON decode error, "carrying the offending
raw bytes for diagnostics". -/
structure JSONSyntaxError where
  original : List Char
deriving DecidableEq

/-- Modelled from the spec: an ID serializes as a JSON string of its decimal
digits, quoted. -/
def ID.MarshalJSON (f : Int) : List Char := '"' :: (ID.String f ++ ['"'])

/-- Modelled from the spec: unmarshal "fails with a syntax error if the
input is not a quoted decimal string" — too short, missing quotes, or a
payload the decimal parser rejects. -/
def ID.UnmarshalJSON (b : List Char) : Except JSONSyntaxError Int :=
  if b.length < 3 ∨ b.headD ' ' ≠ '"' ∨ b.getLastD ' ' ≠ '"' then
    .error ⟨b⟩
  else
    match ParseString ((b.drop 1).dropLast) with
    | .ok i => .ok i
    | .error _ => .error ⟨b⟩

/-! Validation of the spec-modelled codecs against the concrete vectors of
`id_test.go` (the tests are part of the sources). -/

example : ParseBase32 "b8wjm1zroyyyy".toList = .ok 1427970479175499776 := by decide

example : (ParseBase32 "B8WJM1ZROYYYY".toList).isOk = false := by decide

example : (ParseBase32 "b8wjm1zroyyyl".toList).isOk = false := by decide

example : (ParseBase32 "b8wjm1zroyyyv".toList).isOk = false := by decide

example : (ParseBase32 "b8wjm1zroyy2".toList).isOk = false := by decide

example : ParseBase58 "4jgmnx8Js8A".toList = .ok 1428076403798048768 := by decide

example : (ParseBase58 "0jgmnx8Js8A".toList).isOk = false := by decide

example : (ParseBase58 "Ijgmnx8Js8A".toList).isOk = false := by decide

example : (ParseBase58 "Ojgmnx8Js8A".toList).isOk = false := by decide

example : (ParseBase58 "ljgmnx8Js8A".toList).isOk = false := by decide

example : ID.Base32 1427970479175499776 = "b8wjm1zroyyyy".toList := by decide

example : ID.Base58 1428076403798048768 = "4jgmnx8Js8A".toList := by decide

example : ParseString "1116766490855473152".toList = .ok 1116766490855473152 := by
  decide

example : (ParseString "1112316766490855473152".toList).isOk = false := by decide

example : (ID.Base2 1116766490855473152).length = 63 := by decide

example : ParseBase2 (ID.Base2 1116766490855473152) = .ok 1116766490855473152 := by
  decide

example : (ParseBase2
    "111101111111101110110101100101001000000000000000000000000000".toList).isOk
    = true := by decide

example : (ParseBase2 "1112316766490855473152".toList).isOk = false := by decide

example : (ParseBase36 "68h5gmw443blv2lk1w".toList).isOk = false := by decide

example : (ParseBase36 "8hgmw4blvlkw".toList).isOk = true := by decide

example : ID.MarshalJSON 13587 = "\"13587\"".toList := by decide

example : ID.UnmarshalJSON "\"13587\"".toList = .ok 13587 := by decide

example : ID.UnmarshalJSON "1".toList = .error ⟨"1".toList⟩ := by decide

example : ID.UnmarshalJSON "\"invalid".toList = .error ⟨"\"invalid".toList⟩ := by
  decide

example : ID.IntBytes 13587 = [0x0, 0x0, 0x0, 0x0, 0x0, 0x0, 0x35, 0x13] := by
  decide

example : ParseIntBytes [0xf, 0x7f, 0xc0, 0xfc, 0x2f, 0x80, 0x0, 0x0]
    = 1116823421972381696 := by decide

example : ID.Base64 1116819494660997120 = "MTExNjgxOTQ5NDY2MDk5NzEyMA==".toList := by
  decide

example : ParseBase64 "MTExNjgxOTQ5NDY2MDk5NzEyMA==".toList
    = .ok 1116819494660997120 := by decide

example : (ParseBase64 "MTExNjgxOTQ5NDY2MDk5NzEyMA".toList).isOk = false := by
  decide

example : (ParseBytes ([0xFF, 0xFF, 0xFF] ++ "1116821679570419712".toList.map
    Char.toNat)).isOk = false := by decide

example : ParseBytes ("1116821679570419712".toList.map Char.toNat)
    = .ok 1116821679570419712 := by decide

theorem ParseString_String (f : Int) (h0 : 0 ≤ f) (h1 : f < 2 ^ 63) :
    ParseString (ID.String f) = .ok f := by
  unfold ParseString ID.String
  rw [decodeBase_encodeBase decimalDigits true f.toNat (by decide) decimalDigits_idx
      (fun _ => by omega)]
  rw [Int.toNat_of_nonneg h0]

theorem encodeBase_ne_nil (alpha : List Char) (hb : 2 ≤ alpha.length) (n : Nat) :
    encodeBase alpha n ≠ [] := by
  unfold encodeBase
  split
  · simp
  · rename_i hne
    rw [digitsRevAux_eq_digits alpha.length hb n n (le_refl _)]
    have hd : Nat.digits alpha.length n ≠ [] := Nat.digits_ne_nil_iff_ne_zero.mpr hne
    rcases hrev : (Nat.digits alpha.length n).reverse with _ | ⟨x, xs⟩
    · exact absurd (by simpa using hrev) hd
    · simp

theorem decodeBaseAux_replicate_zero (alpha : List Char)
    (hidx : ∀ d, d < alpha.length →
      alpha.findIdx? (· = alpha.getD d ' ') = some d)
    (hb : 2 ≤ alpha.length) :
    ∀ (k : Nat) (s : List Char),
      decodeBaseAux alpha 0 (List.replicate k (alpha.getD 0 ' ') ++ s)
        = decodeBaseAux alpha 0 s := by
  intro k
  induction k with
  | zero => intro s; rfl
  | succ k ih =>
    intro s
    show decodeBaseAux alpha 0
        (alpha.getD 0 ' ' :: (List.replicate k (alpha.getD 0 ' ') ++ s))
      = decodeBaseAux alpha 0 s
    conv_lhs => unfold decodeBaseAux
    rw [hidx 0 (by omega)]
    simpa using ih s

theorem decodeBase_replicate_zero (alpha : List Char) (chk : Bool)
    (hb : 2 ≤ alpha.length)
    (hidx : ∀ d, d < alpha.length →
      alpha.findIdx? (· = alpha.getD d ' ') = some d)
    (k : Nat) (s : List Char) (hs : s ≠ []) :
    decodeBase alpha chk (List.replicate k (alpha.getD 0 ' ') ++ s)
      = decodeBase alpha chk s := by
  unfold decodeBase
  rw [decodeBaseAux_replicate_zero alpha hidx hb k s]
  have h1 : (List.replicate k (alpha.getD 0 ' ') ++ s).isEmpty = s.isEmpty := by
    rcases s with _ | ⟨x, xs⟩
    · exact absurd rfl hs
    · rcases k with _ | k
      · rfl
      · rfl
  rw [h1]

theorem ParseBase2_Base2 (f : Int) (h0 : 0 ≤ f) (h1 : f < 2 ^ 63) :
    ParseBase2 (ID.Base2 f) = .ok f := by
  unfold ParseBase2 ID.Base2
  have hz : base2Digits.getD 0 ' ' = '0' := by decide
  rw [← hz]
  rw [decodeBase_replicate_zero base2Digits true (by decide) base2Digits_idx _ _
      (encodeBase_ne_nil base2Digits (by decide) f.toNat)]
  rw [decodeBase_encodeBase base2Digits true f.toNat (by decide) base2Digits_idx
      (fun _ => by omega)]
  rw [Int.toNat_of_nonneg h0]

theorem ParseBase32_Base32 (f : Int) (h0 : 0 ≤ f) :
    ParseBase32 (ID.Base32 f) = .ok f := by
  unfold ParseBase32 ID.Base32
  rw [decodeBase_encodeBase encodeBase32Map false f.toNat (by decide) encodeBase32Map_idx
      (fun h => absurd h Bool.false_ne_true)]
  rw [Int.toNat_of_nonneg h0]

theorem ParseBase36_Base36 (f : Int) (h0 : 0 ≤ f) (h1 : f < 2 ^ 63) :
    ParseBase36 (ID.Base36 f) = .ok f := by
  unfold ParseBase36 ID.Base36
  rw [decodeBase_encodeBase base36Digits true f.toNat (by decide) base36Digits_idx
      (fun _ => by omega)]
  rw [Int.toNat_of_nonneg h0]

theorem ParseBase58_Base58 (f : Int) (h0 : 0 ≤ f) :
    ParseBase58 (ID.Base58 f) = .ok f := by
  unfold ParseBase58 ID.Base58
  rw [decodeBase_encodeBase encodeBase58Map false f.toNat (by decide) encodeBase58Map_idx
      (fun h => absurd h Bool.false_ne_true)]
  rw [Int.toNat_of_nonneg h0]

theorem ID_String_length_le (f : Int) (h1 : f < 2 ^ 63) :
    (ID.String f).length ≤ 19 := by
  unfold ID.String encodeBase
  split
  · simp
  · rename_i hne
    rw [digitsRevAux_eq_digits decimalDigits.length (by decide) f.toNat f.toNat (le_refl _)]
    rw [List.length_map, List.length_reverse]
    have hlen10 : decimalDigits.length = 10 := by decide
    rw [hlen10]
    have hn19 : f.toNat < 10 ^ 19 := by
      have : f.toNat < 2 ^ 63 := by omega
      calc f.toNat < 2 ^ 63 := this
      _ < 10 ^ 19 := by norm_num
    by_contra hgt
    push_neg at hgt
    have hle : 10 ^ (Nat.digits 10 f.toNat).length ≤ 10 * f.toNat :=
      Nat.base_pow_length_digits_le 10 f.toNat (by norm_num) hne
    have h20 : (10:Nat) ^ 20 ≤ 10 ^ (Nat.digits 10 f.toNat).length :=
      Nat.pow_le_pow_right (by norm_num) (by omega)
    have hchain : (10:Nat) ^ 20 ≤ 10 * f.toNat := le_trans h20 hle
    omega

theorem ParseBytes_Bytes (f : Int) (h0 : 0 ≤ f) (h1 : f < 2 ^ 63) :
    ParseBytes (ID.Bytes f) = .ok f := by
  unfold ParseBytes ID.Bytes
  rw [List.length_map, if_neg (by have := ID_String_length_le f h1; omega)]
  rw [List.map_map]
  have hcomp : Char.ofNat ∘ Char.toNat = id := by
    funext c
    exact Char.ofNat_toNat c
  rw [hcomp, List.map_id]
  exact ParseString_String f h0 h1

theorem mod256_mod256 (x : Nat) : x % 256 % 256 = x % 256 :=
  Nat.mod_mod_of_dvd x dvd_rfl

theorem u64_bytes_recombine (u : Nat) (h : u < 18446744073709551616) :
    u / 72057594037927936 % 256 * 72057594037927936
      + u / 281474976710656 % 256 * 281474976710656
      + u / 1099511627776 % 256 * 1099511627776
      + u / 4294967296 % 256 * 4294967296
      + u / 16777216 % 256 * 16777216
      + u / 65536 % 256 * 65536
      + u / 256 % 256 * 256
      + u % 256 = u := by
  omega

theorem ofUInt64Bits_toUInt64Bits (f : Int) (hlo : -(2 ^ 63) ≤ f) (hhi : f < 2 ^ 63) :
    ofUInt64Bits (toUInt64Bits f) = f := by
  have hnn : 0 ≤ f % 2 ^ 64 := Int.emod_nonneg f (by norm_num)
  have hlt : f % 2 ^ 64 < 2 ^ 64 := Int.emod_lt_of_pos f (by norm_num)
  have huv : (((f % 2 ^ 64).toNat : Nat) : Int) = f % 2 ^ 64 := Int.toNat_of_nonneg hnn
  unfold ofUInt64Bits toUInt64Bits
  split <;> omega

theorem toUInt64Bits_lt (f : Int) : toUInt64Bits f < 2 ^ 64 := by
  have hnn : 0 ≤ f % 2 ^ 64 := Int.emod_nonneg f (by norm_num)
  have hlt : f % 2 ^ 64 < 2 ^ 64 := Int.emod_lt_of_pos f (by norm_num)
  have huv : (((f % 2 ^ 64).toNat : Nat) : Int) = f % 2 ^ 64 := Int.toNat_of_nonneg hnn
  unfold toUInt64Bits
  omega

theorem ParseIntBytes_IntBytes (f : Int) (hlo : -(2 ^ 63) ≤ f) (hhi : f < 2 ^ 63) :
    ParseIntBytes (ID.IntBytes f) = f := by
  show ParseIntBytes [toUInt64Bits f / 2 ^ 56 % 256, toUInt64Bits f / 2 ^ 48 % 256,
   toUInt64Bits f / 2 ^ 40 % 256, toUInt64Bits f / 2 ^ 32 % 256,
   toUInt64Bits f / 2 ^ 24 % 256, toUInt64Bits f / 2 ^ 16 % 256,
   toUInt64Bits f / 2 ^ 8 % 256, toUInt64Bits f % 256] = f
  rw [ParseIntBytes]
  have hub := toUInt64Bits_lt f
  generalize hu : toUInt64Bits f = u at hub ⊢
  have p56 : (2:Nat) ^ 56 = 72057594037927936 := by norm_num
  have p48 : (2:Nat) ^ 48 = 281474976710656 := by norm_num
  have p40 : (2:Nat) ^ 40 = 1099511627776 := by norm_num
  have p32 : (2:Nat) ^ 32 = 4294967296 := by norm_num
  have p24 : (2:Nat) ^ 24 = 16777216 := by norm_num
  have p16 : (2:Nat) ^ 16 = 65536 := by norm_num
  have p8 : (2:Nat) ^ 8 = 256 := by norm_num
  have p64 : (2:Nat) ^ 64 = 18446744073709551616 := by norm_num
  rw [p56, p48, p40, p32, p24, p16, p8]
  rw [p64] at hub
  simp only [mod256_mod256]
  rw [u64_bytes_recombine u hub, ← hu]
  exact ofUInt64Bits_toUInt64Bits f hlo hhi

theorem b64index_b64char : ∀ i, i < 64 → b64index (b64char i) = some i := by decide

theorem b64char_ne_pad : ∀ i, i < 64 → ¬ b64char i = '=' := by decide

theorem base64Decode_base64Encode (bs : List Nat) :
    (∀ x ∈ bs, x < 256) → base64Decode (base64Encode bs) = .ok bs := by
  induction bs using base64Encode.induct with
  | case1 => intro h; rfl
  | case2 a =>
    intro h
    have ha : a < 256 := h a (by simp)
    show base64Decode [b64char (a / 4), b64char (a % 4 * 16), '=', '='] = .ok [a]
    unfold base64Decode
    rw [b64index_b64char (a / 4) (by omega), b64index_b64char (a % 4 * 16) (by omega)]
    simp only [if_pos rfl]
    simp
    omega
  | case3 a b =>
    intro h
    have ha : a < 256 := h a (by simp)
    have hb : b < 256 := h b (by simp)
    show base64Decode [b64char (a / 4), b64char (a % 4 * 16 + b / 16),
        b64char (b % 16 * 4), '='] = .ok [a, b]
    unfold base64Decode
    rw [b64index_b64char (a / 4) (by omega),
        b64index_b64char (a % 4 * 16 + b / 16) (by omega)]
    dsimp only
    rw [if_neg (b64char_ne_pad (b % 16 * 4) (by omega))]
    rw [b64index_b64char (b % 16 * 4) (by omega)]
    dsimp only
    rw [if_pos rfl]
    simp
    constructor <;> omega
  | case4 a b c rest ih =>
    intro h
    have ha : a < 256 := h a (by simp)
    have hb : b < 256 := h b (by simp)
    have hc : c < 256 := h c (by simp)
    show base64Decode (b64char (a / 4) :: b64char (a % 4 * 16 + b / 16) ::
        b64char (b % 16 * 4 + c / 64) :: b64char (c % 64) :: base64Encode rest)
      = .ok (a :: b :: c :: rest)
    unfold base64Decode
    rw [b64index_b64char (a / 4) (by omega),
        b64index_b64char (a % 4 * 16 + b / 16) (by omega)]
    dsimp only
    rw [if_neg (b64char_ne_pad (b % 16 * 4 + c / 64) (by omega))]
    rw [b64index_b64char (b % 16 * 4 + c / 64) (by omega)]
    dsimp only
    rw [if_neg (b64char_ne_pad (c % 64) (by omega))]
    rw [b64index_b64char (c % 64) (by omega)]
    dsimp only
    rw [ih (fun x hx => h x (by simp [hx]))]
    simp
    refine ⟨by omega, by omega, by omega⟩

theorem Bytes_lt_256 (f : Int) : ∀ x ∈ ID.Bytes f, x < 256 := by
  intro x hx
  unfold ID.Bytes ID.String at hx
  rw [List.mem_map] at hx
  obtain ⟨c, hc, rfl⟩ := hx
  have hmem : c ∈ decimalDigits := by
    unfold encodeBase at hc
    split at hc
    · simp at hc
      subst hc
      decide
    · rename_i hne
      rw [digitsRevAux_eq_digits decimalDigits.length (by decide) _ _ (le_refl _)] at hc
      rw [List.mem_map] at hc
      obtain ⟨d, hd, rfl⟩ := hc
      have hdlt : d < decimalDigits.length :=
        Nat.digits_lt_base (by decide) (List.mem_reverse.mp hd)
      rw [List.getD_eq_getElem decimalDigits ' ' hdlt]
      exact List.getElem_mem hdlt
  have : ∀ c ∈ decimalDigits, Char.toNat c < 256 := by decide
  exact this c hmem

theorem ParseBase64_Base64 (f : Int) (h0 : 0 ≤ f) (h1 : f < 2 ^ 63) :
    ParseBase64 (ID.Base64 f) = .ok f := by
  unfold ParseBase64 ID.Base64
  rw [base64Decode_base64Encode (ID.Bytes f) (Bytes_lt_256 f)]
  exact ParseBytes_Bytes f h0 h1

/-- C2: for every valid ID — `NextID` outputs lie in `[0, 2 ^ 63)`, see C3 —
each of the seven codecs (decimal integer, decimal string, binary string,
base32, base36, base58, base64) and the two byte forms decodes its own
encoding back to the original ID. -/
theorem C2_roundtrip (id : Int) (h0 : 0 ≤ id) (h1 : id < 2 ^ 63) :
    ParseInt64 (ID.Int64 id) = id
    ∧ ParseString (ID.String id) = .ok id
    ∧ ParseBase2 (ID.Base2 id) = .ok id
    ∧ ParseBase32 (ID.Base32 id) = .ok id
    ∧ ParseBase36 (ID.Base36 id) = .ok id
    ∧ ParseBase58 (ID.Base58 id) = .ok id
    ∧ ParseBase64 (ID.Base64 id) = .ok id
    ∧ ParseBytes (ID.Bytes id) = .ok id
    ∧ ParseIntBytes (ID.IntBytes id) = id :=
  ⟨rfl, ParseString_String id h0 h1, ParseBase2_Base2 id h0 h1,
   ParseBase32_Base32 id h0, ParseBase36_Base36 id h0 h1,
   ParseBase58_Base58 id h0, ParseBase64_Base64 id h0 h1,
   ParseBytes_Bytes id h0 h1, ParseIntBytes_IntBytes id (by omega) h1⟩

/-- C2 witness at the concrete ID 1427970479175499776 (from `id_test.go`). -/
theorem C2_witness :
    ParseInt64 (ID.Int64 1427970479175499776) = 1427970479175499776
    ∧ ParseString (ID.String 1427970479175499776) = .ok 1427970479175499776
    ∧ ParseBase2 (ID.Base2 1427970479175499776) = .ok 1427970479175499776
    ∧ ParseBase32 (ID.Base32 1427970479175499776) = .ok 1427970479175499776
    ∧ ParseBase36 (ID.Base36 1427970479175499776) = .ok 1427970479175499776
    ∧ ParseBase58 (ID.Base58 1427970479175499776) = .ok 1427970479175499776
    ∧ ParseBase64 (ID.Base64 1427970479175499776) = .ok 1427970479175499776
    ∧ ParseBytes (ID.Bytes 1427970479175499776) = .ok 1427970479175499776
    ∧ ParseIntBytes (ID.IntBytes 1427970479175499776) = 1427970479175499776 :=
  C2_roundtrip 1427970479175499776 (by decide) (by decide)

theorem decodeBaseAux_error_of_mem (alpha : List Char) (c : Char)
    (hc : alpha.findIdx? (· = c) = none) :
    ∀ (s : List Char), c ∈ s → ∀ acc, ∃ e, decodeBaseAux alpha acc s = .error e := by
  intro s
  induction s with
  | nil => intro hmem; exact absurd hmem (List.not_mem_nil c)
  | cons d s ih =>
    intro hmem acc
    show ∃ e, decodeBaseAux alpha acc (d :: s) = .error e
    unfold decodeBaseAux
    rcases hd : alpha.findIdx? (· = d) with _ | i
    · exact ⟨.invalidChar d, rfl⟩
    · rcases List.mem_cons.mp hmem with rfl | hmem2
      · rw [hd] at hc
        exact absurd hc (by simp)
      · exact ih hmem2 _

theorem decodeBase_error_of_mem (alpha : List Char) (chk : Bool) (s : List Char)
    (c : Char) (hmem : c ∈ s) (hc : alpha.findIdx? (· = c) = none) :
    ∃ e, decodeBase alpha chk s = .error e := by
  unfold decodeBase
  split
  · exact ⟨.emptyInput, rfl⟩
  · obtain ⟨e, he⟩ := decodeBaseAux_error_of_mem alpha c hc s hmem 0
    rw [he]
    exact ⟨e, rfl⟩

theorem base32_not_mem_upper (c : Char) (hu : c.isUpper = true) :
    encodeBase32Map.findIdx? (· = c) = none := by
  rw [List.findIdx?_eq_none_iff]
  intro x hx
  simp only [decide_eq_false_iff_not]
  intro hxc
  subst hxc
  have hlower : ∀ x ∈ encodeBase32Map, x.isUpper = false := by decide
  rw [hlower x hx] at hu
  exact Bool.false_ne_true hu

theorem base64Decode_error_of_length : ∀ (s : List Char), s.length % 4 ≠ 0 →
    ∃ e, base64Decode s = .error e
  | [], h => absurd rfl h
  | [c1], _ => ⟨.badBase64, rfl⟩
  | [c1, c2], _ => ⟨.badBase64, rfl⟩
  | [c1, c2, c3], _ => ⟨.badBase64, rfl⟩
  | c1 :: c2 :: c3 :: c4 :: rest, h => by
    have hrest : rest.length % 4 ≠ 0 := by
      simp only [List.length_cons] at h
      omega
    have hne : rest.isEmpty = false := by
      rcases rest with _ | ⟨x, xs⟩
      · exact absurd rfl hrest
      · rfl
    obtain ⟨e, he⟩ := base64Decode_error_of_length rest hrest
    show ∃ e, base64Decode (c1 :: c2 :: c3 :: c4 :: rest) = .error e
    unfold base64Decode
    rcases h1 : b64index c1 with _ | i1
    · exact ⟨.badBase64, rfl⟩
    · rcases h2 : b64index c2 with _ | i2
      · exact ⟨.badBase64, rfl⟩
      · dsimp only
        by_cases h3eq : c3 = '='
        · rw [if_pos h3eq, hne]
          simp only [Bool.and_false]
          rw [if_neg Bool.false_ne_true]
          exact ⟨.badBase64, rfl⟩
        · rw [if_neg h3eq]
          rcases h3 : b64index c3 with _ | i3
          · exact ⟨.badBase64, rfl⟩
          · dsimp only
            by_cases h4eq : c4 = '='
            · rw [if_pos h4eq, hne]
              rw [if_neg Bool.false_ne_true]
              exact ⟨.badBase64, rfl⟩
            · rw [if_neg h4eq]
              rcases h4 : b64index c4 with _ | i4
              · exact ⟨.badBase64, rfl⟩
              · dsimp only
                rw [he]
                exact ⟨e, rfl⟩

/-- C7: each decoder rejects inputs its encoder never emits: base32 fails on
any input containing an uppercase character or one of l, v, 2; base58 fails
on inputs containing 0, I, O, or l; the ASCII-decimal byte parser fails on
inputs of more than 19 digits; base64 fails on unpadded input (length not a
multiple of four, as with padding stripped). -/
theorem C7_decoders_reject
    (s32 : List Char) (c32 : Char) (h32mem : c32 ∈ s32)
    (h32bad : c32.isUpper = true ∨ c32 = 'l' ∨ c32 = 'v' ∨ c32 = '2')
    (s58 : List Char) (c58 : Char) (h58mem : c58 ∈ s58)
    (h58bad : c58 = '0' ∨ c58 = 'I' ∨ c58 = 'O' ∨ c58 = 'l')
    (bs : List Nat) (hbs : 19 < bs.length)
    (s64 : List Char) (h64 : s64.length % 4 ≠ 0) :
    (∃ e, ParseBase32 s32 = .error e)
    ∧ (∃ e, ParseBase58 s58 = .error e)
    ∧ ParseBytes bs = .error .tooLong
    ∧ (∃ e, ParseBase64 s64 = .error e) := by
  refine ⟨?_, ?_, ?_, ?_⟩
  · apply decodeBase_error_of_mem _ _ _ _ h32mem
    rcases h32bad with hu | rfl | rfl | rfl
    · exact base32_not_mem_upper c32 hu
    · decide
    · decide
    · decide
  · apply decodeBase_error_of_mem _ _ _ _ h58mem
    rcases h58bad with rfl | rfl | rfl | rfl
    · decide
    · decide
    · decide
    · decide
  · unfold ParseBytes
    rw [if_pos hbs]
  · unfold ParseBase64
    obtain ⟨e, he⟩ := base64Decode_error_of_length s64 h64
    rw [he]
    exact ⟨e, rfl⟩

/-- C7 witness at the rejection vectors of `id_test.go`: base32 input with a
trailing l, base58 input with a leading 0, a 22-byte decimal input, and the
base64 test vector with its padding stripped. -/
theorem C7_witness :
    (∃ e, ParseBase32 "b8wjm1zroyyyl".toList = .error e)
    ∧ (∃ e, ParseBase58 "0jgmnx8Js8A".toList = .error e)
    ∧ ParseBytes (List.replicate 22 49) = .error .tooLong
    ∧ (∃ e, ParseBase64 "MTExNjgxOTQ5NDY2MDk5NzEyMA".toList = .error e) :=
  C7_decoders_reject "b8wjm1zroyyyl".toList 'l' (by decide) (by decide)
    "0jgmnx8Js8A".toList '0' (by decide) (by decide)
    (List.replicate 22 49) (by decide)
    "MTExNjgxOTQ5NDY2MDk5NzEyMA".toList (by decide)

/-- C8: JSON marshal of any ID is the quoted decimal digits (concretely,
13587 marshals to "13587" with quotes), and unmarshal fails with a syntax
error carrying the offending bytes whenever the input is not a quoted
decimal string (concretely, the bare JSON number 1 fails). -/
theorem C8_json_marshalling (id : Int) (b : List Char)
    (hb : ¬(3 ≤ b.length ∧ b.headD ' ' = '"' ∧ b.getLastD ' ' = '"'
            ∧ ∃ i : Int, ParseString ((b.drop 1).dropLast) = .ok i)) :
    ID.MarshalJSON id = '"' :: (ID.String id ++ ['"'])
    ∧ ID.MarshalJSON 13587 = "\"13587\"".toList
    ∧ ID.UnmarshalJSON b = .error ⟨b⟩
    ∧ ID.UnmarshalJSON "1".toList = .error ⟨"1".toList⟩ := by
  refine ⟨rfl, by decide, ?_, by decide⟩
  unfold ID.UnmarshalJSON
  split
  · rfl
  · rename_i hq
    push_neg at hq
    obtain ⟨hq1, hq2, hq3⟩ := hq
    rcases hp : ParseString ((b.drop 1).dropLast) with e | i
    · rfl
    · exact absurd ⟨by omega, hq2, hq3, i, hp⟩ hb

/-- C8 witness at ID 13587 and the bare JSON number 1. -/
theorem C8_witness :
    ID.MarshalJSON 13587 = '"' :: (ID.String 13587 ++ ['"'])
    ∧ ID.MarshalJSON 13587 = "\"13587\"".toList
    ∧ ID.UnmarshalJSON "1".toList = .error ⟨"1".toList⟩
    ∧ ID.UnmarshalJSON "1".toList = .error ⟨"1".toList⟩ :=
  C8_json_marshalling 13587 "1".toList
    (fun h => absurd h.1 (by decide))
